import Mathlib

set_option maxRecDepth 40000

/-!
Shallow embedding of `src/middleware/retry_after/mod.rs` from the `surf`
repository: the `RetryAfter` middleware, its retry loop (`RetryAfter::handle`),
and the header-parsing helper `delay_from_date_str`.

Modelling conventions:
* Durations are modelled as exact natural numbers of nanoseconds
  (Rust `std::time::Duration` is a pair of `u64` seconds and `u32` nanos;
  all arithmetic performed by the middleware stays far below those bounds,
  see the comments on `step`).  The two comparisons the source makes through
  `as f32` / `as_secs_f32()` are modelled bit-exactly: every finite IEEE-754
  binary32 value is a dyadic rational `m * 2 ^ e`, and `roundF32`,
  `as_secs_f32` and `f32_lt` below perform each cast, operation and
  comparison with round-to-nearest (ties to even) exactly as the hardware
  does, so the model accepts and rejects precisely the delays the code
  does — including delays a fraction of an `f32` ulp above the configured
  caps, which the code accepts.
* The external collaborators are parameters: the transport
  (`sends : Nat → Except String Response`, giving the outcome of the i-th
  `client.send`), the next pipeline stage (`next : Request → Except String Response`),
  the wall clock (`now : Int`, nanoseconds since the epoch, the value of
  `chrono::offset::Utc::now()`), and the three `time::strptime` format
  parsers (`f1 f2 f3 : String → Option Int`, each returning the parsed
  time as whole seconds since the epoch, i.e. `t.to_timespec().sec`).
* A request is identified by an opaque value (its URL/identity); `req.clone()`
  of the source is the identity on this value.
* The `while` loop of `handle` is interpreted with explicit fuel, because the
  source loop does not always terminate; `none` means the fuel ran out with
  the loop still running.
* The interpreter additionally records a trace of observable events (sends,
  suspensions, invocation of the next stage) so that claims about "zero
  suspensions" or "next stage invoked exactly once" are statable.
-/

/-- A request, identified by its URL/identity. `Request::clone` of the source
is the identity on this model. -/
abbrev Request := String

/-- A response as observed by the middleware: its status code and the value
returned by `res.header(headers::RETRY_AFTER)` (already reduced to the last
value, `retry.last().as_str()`, when the header is present). -/
structure Response where
  status : Nat
  retryAfter : Option String
  deriving DecidableEq, Repr

/-- The constant `RETRY_AFTER_CODES` of the source: Moved Permanently (301),
Too Many Requests (429), Service Unavailable (503). -/
def RETRY_AFTER_CODES : List Nat := [301, 429, 503]

/-- The `RetryAfter` middleware configuration: `attempts: u8`,
`max_delay_sec: u16`, `deadline_sec: u16` of the source, as naturals. -/
structure RetryAfter where
  attempts : Nat
  max_delay_sec : Nat
  deadline_sec : Nat
  deriving DecidableEq, Repr

/-- `RetryAfter::default()` of the source: 3 attempts, 30 s per-attempt cap,
60 s cumulative deadline. -/
def RetryAfter.default : RetryAfter :=
  { attempts := 3, max_delay_sec := 30, deadline_sec := 60 }

/-- Rust `str::parse::<u64>()` on the header value: an optional leading `+`,
then one or more ASCII digits making up the whole string, with the value
required to fit in `u64`; anything else is a parse error (`none`). -/
def parseU64 (s : String) : Option Nat :=
  let ds := match s.data with
    | '+' :: rest => rest
    | cs => cs
  if ds = [] then none
  else if ds.all Char.isDigit then
    let v := ds.foldl (fun a c => a * 10 + (c.toNat - 48)) 0
    if v < 2 ^ 64 then some v else none
  else none

/-- The helper `delay_from_date_str` of the source.  The three
`time::strptime` calls — formats `"%a, %d %b %Y %T %Z"` (RFC-1123-style),
`"%A, %d-%b-%y %T %Z"` (RFC-850-style) and `"%c"` (asctime-style) — are the
external `time` crate and enter as the parameters `f1`, `f2`, `f3`, each
yielding the parsed time in whole seconds since the epoch; `now` is the
current wall-clock time in nanoseconds.  On a successful parse the source
computes `parsed_time - now` as a signed duration and converts with
`.to_std().unwrap_or(Duration::ZERO)`, which clamps a non-positive
difference to zero: that is `Int.toNat` here.  On failure it returns an
error mentioning the offending string. -/
def delay_from_date_str (f1 f2 f3 : String → Option Int) (now : Int)
    (s : String) : Except String Nat :=
  match ((f1 s).orElse (fun _ => f2 s)).orElse (fun _ => f3 s) with
  | some t => .ok (t * 1000000000 - now).toNat
  | none => .error ("could not parse date: " ++ s)

/-- Lines 104–111 of the source: the delay extracted from the raw
`Retry-After` value — first the whole string as a `u64` count of seconds
(`Duration::new(delay_sec, 0)`, i.e. whole seconds, here nanoseconds), else
the date route via `delay_from_date_str`, else `None` (invalid header). -/
def retry_delay (f1 f2 f3 : String → Option Int) (now : Int)
    (s : String) : Option Nat :=
  match parseU64 s with
  | some delay_sec => some (delay_sec * 1000000000)
  | none =>
    match delay_from_date_str f1 f2 f3 now s with
    | .ok d => some d
    | .error _ => none

/-- Round the rational `num / den` (`den > 0`) to the nearest integer, ties
to even (the IEEE-754 default rounding applied to an integer target). -/
def rne (num den : Nat) : Nat :=
  let q := num / den
  let r := num % den
  if den < 2 * r then q + 1
  else if 2 * r < den then q
  else if q % 2 = 0 then q else q + 1

/-- Fuel-driven floor base-2 logarithm: one unit of fuel is spent per
halving, so any fuel of at least the bit length gives the exact value. -/
def ilog2Aux : Nat → Nat → Nat
  | 0, _ => 0
  | fuel + 1, n => if n ≤ 1 then 0 else ilog2Aux fuel (n / 2) + 1

/-- Floor base-2 logarithm, exact for `n < 2 ^ 600` — every number arising
in the binary32 computations below is far smaller. -/
def ilog2 (n : Nat) : Nat := ilog2Aux 600 n

/-- Round the non-negative rational `num / den` (`den > 0`) to the nearest
IEEE-754 binary32 value (24-bit significand, round to nearest, ties to
even), returned as an exact dyadic pair `(m, e)` of value `m * 2 ^ e`
(every finite binary32 value is such a dyadic rational).  The literal
below is `2 ^ 300`, used to extract the floor base-2 logarithm of
`num / den` with integer arithmetic only.  Exact on the whole range arising
here: values that are `0` or lie in `[10 ^ (-9), 2 ^ 96]`, far inside the
normal (non-subnormal, non-overflowing) range of binary32. -/
def roundF32 (num den : Nat) : Nat × Int :=
  if num = 0 then (0, 0)
  else
    let k : Int :=
      (ilog2 (num * 2037035976334486086268445688409378161051468393665936250636140449354381299763336706183397376 / den) : Int) - 300
    let m := if k ≤ 23
      then rne (num * 2 ^ (23 - k).toNat) den
      else rne num (den * 2 ^ (k - 23).toNat)
    (m, k - 23)

/-- Rust `u64 as f32` / `u32 as f32`: integer-to-float conversion, rounding
to nearest with ties to even. -/
def natToF32 (n : Nat) : Nat × Int := roundF32 n 1

/-- Binary32 division of a non-negative dyadic binary32 value by a positive
integer that is exactly representable in binary32 (here always `10 ^ 9`),
correctly rounded as IEEE-754 requires. -/
def f32Div (x : Nat × Int) (n : Nat) : Nat × Int :=
  if 0 ≤ x.2 then roundF32 (x.1 * 2 ^ x.2.toNat) n
  else roundF32 x.1 (n * 2 ^ (-x.2).toNat)

/-- Binary32 addition of two non-negative dyadic binary32 values, correctly
rounded as IEEE-754 requires. -/
def f32Add (x y : Nat × Int) : Nat × Int :=
  let e := min x.2 y.2
  let M := x.1 * 2 ^ (x.2 - e).toNat + y.1 * 2 ^ (y.2 - e).toNat
  if 0 ≤ e then roundF32 (M * 2 ^ e.toNat) 1
  else roundF32 M (2 ^ (-e).toNat)

/-- `Duration::as_secs_f32()` of a duration of `d` nanoseconds, modelled
bit-exactly.  The Rust standard library computes
`(self.secs as f32) + (self.nanos as f32) / (NANOS_PER_SEC as f32)` with
`secs = d / 10 ^ 9` and `nanos = d % 10 ^ 9`; each cast and operation
rounds to nearest (ties to even), and `10 ^ 9` is exactly representable in
binary32. -/
def as_secs_f32 (d : Nat) : Nat × Int :=
  f32Add (natToF32 (d / 1000000000))
    (f32Div (natToF32 (d % 1000000000)) 1000000000)

/-- The source's comparison `(a as f32) < x` for an unsigned integer
`a : u16` (at most `65535`, hence exactly representable in binary32) and a
non-negative binary32 value `x` given as a dyadic pair: comparison of
finite binary32 values coincides with exact rational comparison. -/
def f32_lt (a : Nat) (x : Nat × Int) : Bool :=
  if 0 ≤ x.2 then decide (a < x.1 * 2 ^ x.2.toNat)
  else decide (a * 2 ^ (-x.2).toNat < x.1)

/-- Outcome of one iteration of the `while` loop body. -/
inductive StepOut where
  /-- `client.send(r).await?` failed: the error propagates out of `handle`. -/
  | fail (e : String)
  /-- A `break` was reached (or the status/header analysis fell through to
  `break`): the loop stops with the given `count` and `accumulated_duration`. -/
  | stop (count accumulated : Nat)
  /-- The loop body completed and the loop re-enters its guard, with the new
  `count`, `accumulated_duration`, and the delay slept (`some d` after an
  accepted delay, `none` when the body fell through without sleeping). -/
  | again (count accumulated : Nat) (slept : Option Nat)
  deriving DecidableEq, Repr

/-- One iteration of the loop body of `RetryAfter::handle` (lines 88–139 of
the source), given the outcome `res` of this iteration's send and the current
`count` / `accumulated_duration`.

Faithfulness notes:
* the comparisons `(self.max_delay_sec as f32) < delay.as_secs_f32()` and
  `(self.deadline_sec as f32) < accumulated_duration.as_secs_f32()` are
  modelled bit-exactly through `f32_lt` and `as_secs_f32`, reproducing the
  binary32 rounding of the source, including its acceptance of delays a
  fraction of an ulp above the caps;
* the source performs `accumulated_duration += delay` BEFORE the deadline
  comparison, so on a deadline rejection the accumulated duration has
  already been increased — this is mirrored by `.stop count (acc + d)`;
* when the status is retryable but the header is absent, the inner
  `if let Some(retry) = res.header(..)` of the source has no `else`: the
  body falls through and the loop re-enters its guard with `count` and
  `accumulated_duration` unchanged and without sleeping
  (`.again count acc none`). -/
def step (m : RetryAfter) (f1 f2 f3 : String → Option Int) (now : Int)
    (res : Except String Response) (count acc : Nat) : StepOut :=
  match res with
  | .error e => .fail e
  | .ok r =>
    if r.status ∈ RETRY_AFTER_CODES then
      match r.retryAfter with
      | some s =>
        match retry_delay f1 f2 f3 now s with
        | some d =>
          if f32_lt m.max_delay_sec (as_secs_f32 d) then
            .stop count acc
          else
            if f32_lt m.deadline_sec (as_secs_f32 (acc + d)) then
              .stop count (acc + d)
            else
              .again (count + 1) (acc + d) (some d)
        | none => .stop count acc
      | none => .again count acc none
    else .stop count acc

/-- Observable events of one `handle` invocation. -/
inductive Event where
  /-- `client.send(r).await` was entered with a clone of the request. -/
  | send (r : Request)
  /-- `task::sleep(delay).await`: a suspension of `d` nanoseconds. -/
  | sleep (d : Nat)
  /-- `next.run(req, client).await`: the next pipeline stage was invoked
  with the request. -/
  | callNext (r : Request)
  deriving DecidableEq, Repr

/-- The suspension events of one loop iteration: a single
`task::sleep(delay).await` after an accepted delay, nothing otherwise. -/
def sleepEvents : Option Nat → List Event
  | some d => [Event.sleep d]
  | none => []

/-- The `while count < self.attempts` loop of `RetryAfter::handle`,
interpreted with fuel.  `i` indexes the sends (the i-th send observes
`sends i`), `count` and `acc` are the loop state.  The result is `none` when
the fuel is exhausted with the loop still running, otherwise the list of
events of the remaining iterations, the final `count` and
`accumulated_duration`, and `some e` when the loop was aborted by a failed
send with error `e` (`none` for a normal exit). -/
def loop (m : RetryAfter) (f1 f2 f3 : String → Option Int) (now : Int)
    (req : Request) (sends : Nat → Except String Response) :
    Nat → Nat → Nat → Nat → Option (List Event × Nat × Nat × Option String)
  | 0, _, _, _ => none
  | fuel + 1, i, count, acc =>
    if count < m.attempts then
      match step m f1 f2 f3 now (sends i) count acc with
      | .fail e => some ([Event.send req], count, acc, some e)
      | .stop c a => some ([Event.send req], c, a, none)
      | .again c a slept =>
        match loop m f1 f2 f3 now req sends fuel (i + 1) c a with
        | some (evs, fc, fa, err) =>
          some (Event.send req :: (sleepEvents slept ++ evs), fc, fa, err)
        | none => none
    else some ([], count, acc, none)

/-- `RetryAfter::handle` (lines 81–143 of the source): run the retry loop
starting from `count = 0`, `accumulated_duration = Duration::ZERO`, then —
unless a send error propagated — return `Ok(next.run(req, client).await?)`,
i.e. the next stage's outcome on the original request.  The result pairs the
middleware's returned value with the event trace; `none` means the fuel ran
out inside the loop. -/
def handle (m : RetryAfter) (f1 f2 f3 : String → Option Int) (now : Int)
    (req : Request) (sends : Nat → Except String Response)
    (next : Request → Except String Response) (fuel : Nat) :
    Option (Except String Response × List Event) :=
  match loop m f1 f2 f3 now req sends fuel 0 0 0 with
  | none => none
  | some (evs, _, _, some e) => some (.error e, evs)
  | some (evs, _, _, none) => some (next req, evs ++ [Event.callNext req])

/-- The suspensions recorded in a trace, in order. -/
def sleepsOf : List Event → List Nat
  | [] => []
  | Event.sleep d :: evs => d :: sleepsOf evs
  | _ :: evs => sleepsOf evs

/-- How many times a trace invokes the next pipeline stage. -/
def numCallNext : List Event → Nat
  | [] => 0
  | Event.callNext _ :: evs => numCallNext evs + 1
  | _ :: evs => numCallNext evs

/-- How many sends a trace performs. -/
def numSends : List Event → Nat
  | [] => 0
  | Event.send _ :: evs => numSends evs + 1
  | _ :: evs => numSends evs

theorem sleepsOf_append (a b : List Event) :
    sleepsOf (a ++ b) = sleepsOf a ++ sleepsOf b := by
  induction a with
  | nil => rfl
  | cons e t ih => cases e <;> simp [sleepsOf, ih]

theorem numCallNext_append (a b : List Event) :
    numCallNext (a ++ b) = numCallNext a + numCallNext b := by
  induction a with
  | nil => simp [numCallNext]
  | cons e t ih =>
    cases e with
    | send r => simp [numCallNext, ih]
    | sleep d => simp [numCallNext, ih]
    | callNext r => simp [numCallNext, ih]; omega

theorem numCallNext_sleepEvents (s : Option Nat) :
    numCallNext (sleepEvents s) = 0 := by
  cases s <;> rfl

theorem sleepsOf_sleepEvents (s : Option Nat) :
    sleepsOf (sleepEvents s) = s.toList := by
  cases s <;> rfl

theorem send_not_in_sleepEvents (s : Option Nat) (r : Request) :
    Event.send r ∉ sleepEvents s := by
  cases s <;> simp [sleepEvents]

theorem step_stop_count (m : RetryAfter) (f1 f2 f3 : String → Option Int) (now : Int)
    (res : Except String Response) (count acc c a : Nat)
    (h : step m f1 f2 f3 now res count acc = .stop c a) : c = count := by
  simp only [step] at h
  split at h
  · exact absurd h (by simp)
  · split at h
    · split at h
      · split at h
        · split at h
          · exact (StepOut.stop.injEq .. ▸ h).1.symm
          · split at h
            · exact (StepOut.stop.injEq .. ▸ h).1.symm
            · exact absurd h (by simp)
        · exact (StepOut.stop.injEq .. ▸ h).1.symm
      · exact absurd h (by simp)
    · exact (StepOut.stop.injEq .. ▸ h).1.symm

theorem step_again_spec (m : RetryAfter) (f1 f2 f3 : String → Option Int) (now : Int)
    (res : Except String Response) (count acc c a : Nat) (sl : Option Nat)
    (h : step m f1 f2 f3 now res count acc = .again c a sl) :
    (c = count ∧ a = acc ∧ sl = none) ∨
    (c = count + 1 ∧ ∃ d, sl = some d ∧ a = acc + d ∧
      f32_lt m.max_delay_sec (as_secs_f32 d) = false ∧
      f32_lt m.deadline_sec (as_secs_f32 (acc + d)) = false) := by
  simp only [step] at h
  split at h
  · exact absurd h (by simp)
  · split at h
    · split at h
      · split at h
        · split at h
          · exact absurd h (by simp)
          · split at h
            · exact absurd h (by simp)
            · rename_i hmax hdl
              obtain ⟨h1, h2, h3⟩ := StepOut.again.injEq .. ▸ h
              exact Or.inr ⟨h1.symm, _, h3.symm, h2.symm,
                by simpa using hmax, by simpa using hdl⟩
        · exact absurd h (by simp)
      · obtain ⟨h1, h2, h3⟩ := StepOut.again.injEq .. ▸ h
        exact Or.inl ⟨h1.symm, h2.symm, h3.symm⟩
    · exact absurd h (by simp)
theorem loop_no_callNext (m : RetryAfter) (f1 f2 f3 : String → Option Int) (now : Int)
    (req : Request) (sends : Nat → Except String Response)
    (fuel i count acc : Nat) (evs : List Event) (fc fa : Nat) (err : Option String)
    (h : loop m f1 f2 f3 now req sends fuel i count acc = some (evs, fc, fa, err)) :
    numCallNext evs = 0 := by
  induction fuel generalizing i count acc evs fc fa err with
  | zero => simp [loop] at h
  | succ n ih =>
    simp only [loop] at h
    split at h
    · split at h
      · simp only [Option.some.injEq, Prod.mk.injEq] at h
        obtain ⟨h1, -⟩ := h
        simp [← h1, numCallNext]
      · simp only [Option.some.injEq, Prod.mk.injEq] at h
        obtain ⟨h1, -⟩ := h
        simp [← h1, numCallNext]
      · split at h
        · rename_i evs' fc' fa' err' hrec
          simp only [Option.some.injEq, Prod.mk.injEq] at h
          obtain ⟨h1, -⟩ := h
          simp [← h1, numCallNext, numCallNext_append, numCallNext_sleepEvents,
            ih _ _ _ _ _ _ _ hrec]
        · exact absurd h (by simp)
    · simp only [Option.some.injEq, Prod.mk.injEq] at h
      obtain ⟨h1, -⟩ := h
      simp [← h1, numCallNext]

theorem loop_send_req (m : RetryAfter) (f1 f2 f3 : String → Option Int) (now : Int)
    (req : Request) (sends : Nat → Except String Response)
    (fuel i count acc : Nat) (evs : List Event) (fc fa : Nat) (err : Option String)
    (h : loop m f1 f2 f3 now req sends fuel i count acc = some (evs, fc, fa, err)) :
    ∀ r, Event.send r ∈ evs → r = req := by
  induction fuel generalizing i count acc evs fc fa err with
  | zero => simp [loop] at h
  | succ n ih =>
    simp only [loop] at h
    split at h
    · split at h
      · simp only [Option.some.injEq, Prod.mk.injEq] at h
        obtain ⟨h1, -⟩ := h
        simp [← h1]
      · simp only [Option.some.injEq, Prod.mk.injEq] at h
        obtain ⟨h1, -⟩ := h
        simp [← h1]
      · split at h
        · rename_i evs' fc' fa' err' hrec
          simp only [Option.some.injEq, Prod.mk.injEq] at h
          obtain ⟨h1, -⟩ := h
          intro r hr
          rw [← h1] at hr
          simp only [List.mem_cons, List.mem_append] at hr
          rcases hr with h' | h' | h'
          · exact Event.send.injEq .. ▸ h'
          · exact absurd h' (send_not_in_sleepEvents _ _)
          · exact ih _ _ _ _ _ _ _ hrec r h'
        · exact absurd h (by simp)
    · simp only [Option.some.injEq, Prod.mk.injEq] at h
      obtain ⟨h1, -⟩ := h
      simp [← h1]
/-- C5: `attemptsUsed` (the loop counter `count`) never exceeds
`policy.attempts`: for every configuration, every transport behaviour and
every reachable intermediate loop state with `count ≤ attempts` — `handle`
starts the loop at `count = 0` — the final counter still satisfies the
bound.  The statement quantifies over every start state, so it covers every
point of the processing. -/
theorem attemptsUsed_never_exceeds_attempts (m : RetryAfter) (f1 f2 f3 : String → Option Int) (now : Int)
    (req : Request) (sends : Nat → Except String Response)
    (fuel i count acc : Nat) (evs : List Event) (fc fa : Nat) (err : Option String)
    (h : loop m f1 f2 f3 now req sends fuel i count acc = some (evs, fc, fa, err))
    (hc : count ≤ m.attempts) : fc ≤ m.attempts := by
  induction fuel generalizing i count acc evs fc fa err with
  | zero => simp [loop] at h
  | succ n ih =>
    simp only [loop] at h
    split at h
    · rename_i hguard
      split at h
      · simp only [Option.some.injEq, Prod.mk.injEq] at h
        obtain ⟨-, h2, -⟩ := h
        omega
      · rename_i c a hstep
        simp only [Option.some.injEq, Prod.mk.injEq] at h
        obtain ⟨-, h2, -⟩ := h
        have := step_stop_count m f1 f2 f3 now (sends i) count acc c a hstep
        omega
      · rename_i c a slept hstep
        split at h
        · rename_i evs' fc' fa' err' hrec
          simp only [Option.some.injEq, Prod.mk.injEq] at h
          obtain ⟨-, h2, -⟩ := h
          have hca := step_again_spec m f1 f2 f3 now (sends i) count acc c a slept hstep
          have hc' : c ≤ m.attempts := by
            rcases hca with ⟨rfl, -⟩ | ⟨rfl, -⟩ <;> omega
          have := ih _ _ _ _ _ _ _ hrec hc'
          omega
        · exact absurd h (by simp)
    · simp only [Option.some.injEq, Prod.mk.injEq] at h
      obtain ⟨-, h2, -⟩ := h
      omega

theorem loop_sleeps_spec (m : RetryAfter) (f1 f2 f3 : String → Option Int) (now : Int)
    (req : Request) (sends : Nat → Except String Response)
    (fuel i count acc : Nat) (evs : List Event) (fc fa : Nat) (err : Option String)
    (h : loop m f1 f2 f3 now req sends fuel i count acc = some (evs, fc, fa, err)) :
    (∀ d ∈ sleepsOf evs, f32_lt m.max_delay_sec (as_secs_f32 d) = false) ∧
    (∀ k < (sleepsOf evs).length,
      f32_lt m.deadline_sec (as_secs_f32 (acc + ((sleepsOf evs).take (k + 1)).sum))
        = false) := by
  induction fuel generalizing i count acc evs fc fa err with
  | zero => simp [loop] at h
  | succ n ih =>
    simp only [loop] at h
    split at h
    · split at h
      · simp only [Option.some.injEq, Prod.mk.injEq] at h
        obtain ⟨h1, -⟩ := h
        constructor
        · simp [← h1, sleepsOf]
        · intro k hk
          rw [← h1] at hk
          simp [sleepsOf] at hk
      · simp only [Option.some.injEq, Prod.mk.injEq] at h
        obtain ⟨h1, -⟩ := h
        constructor
        · simp [← h1, sleepsOf]
        · intro k hk
          rw [← h1] at hk
          simp [sleepsOf] at hk
      · rename_i c a slept hstep
        split at h
        · rename_i evs' fc' fa' err' hrec
          simp only [Option.some.injEq, Prod.mk.injEq] at h
          obtain ⟨h1, -⟩ := h
          have hca := step_again_spec m f1 f2 f3 now (sends i) count acc c a slept hstep
          rcases hca with ⟨-, rfl, rfl⟩ | ⟨-, d, rfl, rfl, hdM, hdD⟩
          · have hih := ih _ _ _ _ _ _ _ hrec
            have hsl : sleepsOf evs = sleepsOf evs' := by
              rw [← h1]
              simp [sleepsOf, sleepsOf_append, sleepsOf_sleepEvents]
            rw [hsl]
            exact hih
          · have hih := ih _ _ _ _ _ _ _ hrec
            have hsl : sleepsOf evs = d :: sleepsOf evs' := by
              rw [← h1]
              simp [sleepsOf, sleepsOf_append, sleepsOf_sleepEvents]
            rw [hsl]
            constructor
            · intro d' hd'
              rcases List.mem_cons.mp hd' with rfl | hd'
              · exact hdM
              · exact hih.1 d' hd'
            · intro k hk
              cases k with
              | zero => simpa using hdD
              | succ j =>
                simp only [List.take_succ_cons, List.sum_cons, ← Nat.add_assoc]
                have hj : j < (sleepsOf evs').length := by
                  simpa using Nat.lt_of_succ_lt_succ hk
                exact hih.2 j hj
        · exact absurd h (by simp)
    · simp only [Option.some.injEq, Prod.mk.injEq] at h
      obtain ⟨h1, -⟩ := h
      constructor
      · simp [← h1, sleepsOf]
      · intro k hk
        rw [← h1] at hk
        simp [sleepsOf] at hk

theorem loop_diverges_headerless (m : RetryAfter) (f1 f2 f3 : String → Option Int)
    (now : Int) (req : Request) (sends : Nat → Except String Response)
    (hr : ∀ i, ∃ r, sends i = .ok r ∧ r.status ∈ RETRY_AFTER_CODES ∧ r.retryAfter = none)
    (fuel i count acc : Nat) (hc : count < m.attempts) :
    loop m f1 f2 f3 now req sends fuel i count acc = none := by
  induction fuel generalizing i with
  | zero => rfl
  | succ n ih =>
    obtain ⟨r, hs, hst, hh⟩ := hr i
    simp only [loop, if_pos hc, step, hs, hh, if_pos hst, ih (i + 1)]

/-- C1: the claim says that a response whose status is retryable (here 301)
but which carries no `Retry-After` header makes the loop stop immediately
after that single send.  The code does not: the inner `if let` on the header
has no `else`, so the loop re-enters and sends again.  Concretely, with a
first response of status 301 without the header and a second response of
status 200, the trace contains TWO sends before the next stage runs. -/
theorem retryable_no_header_does_not_stop :
    handle RetryAfter.default (fun _ => none) (fun _ => none) (fun _ => none) 0 "r"
      (fun i => if i = 0 then .ok ⟨301, none⟩ else .ok ⟨200, none⟩)
      (fun _ => .ok ⟨200, none⟩) 5
      = some (.ok ⟨200, none⟩, [Event.send "r", Event.send "r", Event.callNext "r"])
    ∧ numSends [Event.send "r", Event.send "r", Event.callNext "r"] = 2 := by
  exact ⟨by rfl, by rfl⟩

/-- C2: the claim says the retry loop always terminates.  It does not: when
every send yields a retryable status (301) with no `Retry-After` header, no
iteration breaks and the attempt counter is never incremented, so the loop
runs forever — for every amount of fuel, the interpreter is still inside the
loop (`none`). -/
theorem loop_never_terminates_headerless (fuel : Nat) (f1 f2 f3 : String → Option Int)
    (now : Int) (req : Request) (next : Request → Except String Response) :
    handle RetryAfter.default f1 f2 f3 now req (fun _ => .ok ⟨301, none⟩) next fuel
      = none := by
  have h := loop_diverges_headerless RetryAfter.default f1 f2 f3 now req
    (fun _ => .ok ⟨301, none⟩) (fun _ => ⟨⟨301, none⟩, rfl, by decide, rfl⟩)
    fuel 0 0 0 (by decide)
  simp [handle, h]

/-- C10: with `attempts = 0` the loop guard `count < self.attempts` fails at
once: the loop body never runs (no send, no suspension), and the next stage
is still invoked exactly once with the original request, its outcome being
the final result. -/
theorem zero_attempts_skips_loop (max dl : Nat) (f1 f2 f3 : String → Option Int)
    (now : Int) (req : Request) (sends : Nat → Except String Response)
    (next : Request → Except String Response) (fuel : Nat) :
    handle ⟨0, max, dl⟩ f1 f2 f3 now req sends next (fuel + 1)
      = some (next req, [Event.callNext req])
    ∧ numSends [Event.callNext req] = 0
    ∧ sleepsOf [Event.callNext req] = []
    ∧ numCallNext [Event.callNext req] = 1 := by
  refine ⟨?_, rfl, rfl, rfl⟩
  simp [handle, loop]

/-- C3, counterexample: with policy (attempts 3, maxDelay 30 s, deadline
20 s) and a 429 response carrying `Retry-After: 25`, the bound checker
rejects the 25 s delay against the 20 s deadline: the loop stops with no
suspension and `attemptsUsed` still 0, but the final accumulated delay is
25 s — not its previous value 0, because the source adds the delay to
`accumulated_duration` before the deadline comparison.  This refutes the
claim that the state is left unchanged on rejection. -/
theorem bound_reject_changes_accumulated :
    loop ⟨3, 30, 20⟩ (fun _ => none) (fun _ => none) (fun _ => none) 0 "r"
      (fun _ => .ok ⟨429, some "25"⟩) 5 0 0 0
      = some ([Event.send "r"], 0, 25000000000, none)
    ∧ (25000000000 : Nat) ≠ 0 := by
  exact ⟨by rfl, by decide⟩

/-- C3, amended: when the bound checker rejects a candidate delay — the
checks being the source's `f32` comparisons against `maxDelay` and, after
the accumulation, against the deadline — the loop stops at once with a
single send and no suspension, and `attemptsUsed` is not incremented;
`accumulatedDelay` keeps its previous value when the rejection is against
`maxDelay`, but when the rejection is against the deadline the candidate
delay has already been added to `accumulatedDelay` before the check (the
loop terminates immediately, so the increased value is only ever
discarded). -/
theorem bound_reject_spec (m : RetryAfter) (f1 f2 f3 : String → Option Int)
    (now : Int) (req : Request) (sends : Nat → Except String Response)
    (fuel i count acc : Nat) (r : Response) (s : String) (d : Nat)
    (hc : count < m.attempts) (hs : sends i = .ok r)
    (hst : r.status ∈ RETRY_AFTER_CODES) (hh : r.retryAfter = some s)
    (hd : retry_delay f1 f2 f3 now s = some d) :
    (f32_lt m.max_delay_sec (as_secs_f32 d) = true →
      loop m f1 f2 f3 now req sends (fuel + 1) i count acc
        = some ([Event.send req], count, acc, none))
    ∧ (f32_lt m.max_delay_sec (as_secs_f32 d) = false →
      f32_lt m.deadline_sec (as_secs_f32 (acc + d)) = true →
      loop m f1 f2 f3 now req sends (fuel + 1) i count acc
        = some ([Event.send req], count, acc + d, none)) := by
  constructor
  · intro h1
    simp only [loop, if_pos hc, step, hs, hh, hd, if_pos hst, h1]
    rfl
  · intro h1 h2
    simp only [loop, if_pos hc, step, hs, hh, hd, if_pos hst, h1, h2]
    rfl

/-- C4, counterexample: the source's bound checks are `f32` comparisons, so
an accepted-and-slept delay CAN exceed `maxDelay`.  With policy (attempts 3,
maxDelay 30 s, deadline 60 s) and a 429 response whose `Retry-After` date
parses to 31 s after the epoch while `now` is 0.9999999 s after the epoch,
the candidate delay is 30 s + 100 ns; `as_secs_f32` rounds it to exactly
`30.0f32` (100 ns is under half an ulp of 30), the check
`(30u16 as f32) < 30.0f32` fails, and the loop sleeps 30.0000001 s — a
suspension strictly exceeding the 30 s cap, refuting the claim that no
accepted delay exceeds `policy.maxDelay`. -/
theorem f32_rounding_accepts_overlong_delay :
    loop ⟨3, 30, 60⟩ (fun _ => some 31) (fun _ => none) (fun _ => none) 999999900 "r"
      (fun i => if i = 0 then .ok ⟨429, some "D"⟩ else .ok ⟨200, none⟩) 3 0 0 0
      = some ([Event.send "r", Event.sleep 30000000100, Event.send "r"],
          1, 30000000100, none)
    ∧ (30000000100 : Nat) ∈ sleepsOf [Event.send "r", Event.sleep 30000000100,
        Event.send "r"]
    ∧ 30 * 1000000000 < (30000000100 : Nat) := by
  refine ⟨by rfl, by simp [sleepsOf], by decide⟩

/-- C4, amended: every delay that is actually slept passed the code's
binary32 bound checks, and the checks run strictly before the suspension:
for each suspension `d` of a completed `handle` trace the comparison
`(maxDelay as f32) < as_secs_f32(d)` is false, and for each acceptance the
just-accumulated total — the `k + 1`-element prefix sum of the sleeps — the
comparison `(deadline as f32) < as_secs_f32(total)` is false.  Because the
comparisons round to binary32, a date-derived delay up to half an ulp above
a cap can still pass (see the counterexample); up to exactly that rounding
slack, no slept delay exceeds `maxDelay` and no accumulated total at an
acceptance exceeds `deadline`. -/
theorem accepted_delays_pass_bound_checks (m : RetryAfter)
    (f1 f2 f3 : String → Option Int)
    (now : Int) (req : Request) (sends : Nat → Except String Response)
    (next : Request → Except String Response) (fuel : Nat)
    (res : Except String Response) (tr : List Event)
    (h : handle m f1 f2 f3 now req sends next fuel = some (res, tr)) :
    (∀ d ∈ sleepsOf tr, f32_lt m.max_delay_sec (as_secs_f32 d) = false)
    ∧ (∀ k < (sleepsOf tr).length,
      f32_lt m.deadline_sec (as_secs_f32 (((sleepsOf tr).take (k + 1)).sum))
        = false) := by
  simp only [handle] at h
  split at h
  · exact absurd h (by simp)
  · rename_i evs fc fa e hloop
    simp only [Option.some.injEq, Prod.mk.injEq] at h
    obtain ⟨-, h2⟩ := h
    have hspec := loop_sleeps_spec m f1 f2 f3 now req sends fuel 0 0 0 evs fc fa
      (some e) hloop
    constructor
    · intro d hd
      rw [← h2] at hd
      exact hspec.1 d hd
    · intro k hk
      rw [← h2] at hk ⊢
      have := hspec.2 k hk
      rwa [Nat.zero_add] at this
  · rename_i evs fc fa hloop
    simp only [Option.some.injEq, Prod.mk.injEq] at h
    obtain ⟨-, h2⟩ := h
    have hspec := loop_sleeps_spec m f1 f2 f3 now req sends fuel 0 0 0 evs fc fa
      none hloop
    have hsl : sleepsOf tr = sleepsOf evs := by
      rw [← h2, sleepsOf_append]
      simp [sleepsOf]
    constructor
    · intro d hd
      rw [hsl] at hd
      exact hspec.1 d hd
    · intro k hk
      rw [hsl] at hk ⊢
      have := hspec.2 k hk
      rwa [Nat.zero_add] at this

theorem accepted_delays_witness :
    f32_lt RetryAfter.default.deadline_sec
      (as_secs_f32 (((sleepsOf [Event.send "r", Event.sleep 5000000000,
        Event.send "r", Event.sleep 5000000000, Event.send "r",
        Event.sleep 5000000000, Event.callNext "r"]).take 3).sum)) = false :=
  (accepted_delays_pass_bound_checks RetryAfter.default (fun _ => none) (fun _ => none)
    (fun _ => none) 0 "r" (fun _ => .ok ⟨429, some "5"⟩) (fun _ => .ok ⟨200, none⟩) 4
    (.ok ⟨200, none⟩) _ (by rfl)).2 2 (by decide)

/-- C6: behaviour of the header parser.  The whole string is first tried as
a non-negative integer count of seconds; failing that, the three date
formats are tried in order, the first match winning; a parsed date yields
`parsed_time - now` clamped at zero; if nothing parses the outcome is
`none` (unparsable). -/
theorem header_parser_spec (f1 f2 f3 : String → Option Int) (now : Int) (s : String) :
    (∀ n, parseU64 s = some n →
      retry_delay f1 f2 f3 now s = some (n * 1000000000))
    ∧ (∀ t, parseU64 s = none → f1 s = some t →
      retry_delay f1 f2 f3 now s = some (t * 1000000000 - now).toNat)
    ∧ (∀ t, parseU64 s = none → f1 s = none → f2 s = some t →
      retry_delay f1 f2 f3 now s = some (t * 1000000000 - now).toNat)
    ∧ (∀ t, parseU64 s = none → f1 s = none → f2 s = none → f3 s = some t →
      retry_delay f1 f2 f3 now s = some (t * 1000000000 - now).toNat)
    ∧ (parseU64 s = none → f1 s = none → f2 s = none → f3 s = none →
      retry_delay f1 f2 f3 now s = none)
    ∧ (∀ t : Int, now ≤ t * 1000000000 →
      ((t * 1000000000 - now).toNat : Int) = t * 1000000000 - now)
    ∧ (∀ t : Int, t * 1000000000 ≤ now → (t * 1000000000 - now).toNat = 0) := by
  refine ⟨?_, ?_, ?_, ?_, ?_, ?_, ?_⟩
  · intro n hp
    simp [retry_delay, hp]
  · intro t hp h1
    simp [retry_delay, hp, delay_from_date_str, h1, Option.orElse]
  · intro t hp h1 h2
    simp [retry_delay, hp, delay_from_date_str, h1, h2, Option.orElse]
  · intro t hp h1 h2 h3
    simp [retry_delay, hp, delay_from_date_str, h1, h2, h3, Option.orElse]
  · intro hp h1 h2 h3
    simp [retry_delay, hp, delay_from_date_str, h1, h2, h3, Option.orElse]
  · intro t ht
    omega
  · intro t ht
    omega

theorem header_parser_witness :
    retry_delay (fun u => if u = "date" then some 1 else none) (fun _ => none)
      (fun _ => none) 5000000000 "date" = some 0 := by
  have h := (header_parser_spec (fun u => if u = "date" then some 1 else none)
    (fun _ => none) (fun _ => none) 5000000000 "date").2.1 1 (by rfl) (by simp)
  simpa using h

/-- C7: a retryable response whose `Retry-After` value parses neither as an
integer nor under any of the three date formats makes the loop stop at
once — a single send, no suspension — and the middleware raises no error:
the result is the next stage's outcome on the original request. -/
theorem unparsable_header_stops_gracefully (m : RetryAfter)
    (f1 f2 f3 : String → Option Int) (now : Int) (req : Request)
    (sends : Nat → Except String Response) (next : Request → Except String Response)
    (fuel : Nat) (r : Response) (s : String)
    (ha : 0 < m.attempts) (hs : sends 0 = .ok r)
    (hst : r.status ∈ RETRY_AFTER_CODES) (hh : r.retryAfter = some s)
    (hp : parseU64 s = none) (h1 : f1 s = none) (h2 : f2 s = none) (h3 : f3 s = none) :
    handle m f1 f2 f3 now req sends next (fuel + 1)
      = some (next req, [Event.send req, Event.callNext req]) := by
  have hd : retry_delay f1 f2 f3 now s = none := by
    simp [retry_delay, hp, delay_from_date_str, h1, h2, h3, Option.orElse]
  simp only [handle, loop, if_pos ha, step, hs, hh, hd, if_pos hst]
  rfl

theorem unparsable_header_witness :
    handle RetryAfter.default (fun _ => none) (fun _ => none) (fun _ => none) 0 "r"
      (fun _ => .ok ⟨429, some "not-a-number-or-date"⟩) (fun _ => .ok ⟨200, none⟩) 5
      = some (.ok ⟨200, none⟩, [Event.send "r", Event.callNext "r"]) := by
  have h := unparsable_header_stops_gracefully RetryAfter.default
    (fun _ => none) (fun _ => none) (fun _ => none) 0 "r"
    (fun _ => .ok ⟨429, some "not-a-number-or-date"⟩) (fun _ => .ok ⟨200, none⟩) 4
    ⟨429, some "not-a-number-or-date"⟩ "not-a-number-or-date"
    (by decide) (by rfl) (by decide) (by rfl) (by rfl) (by rfl) (by rfl) (by rfl)
  simpa using h

/-- C8: a failed send aborts the loop at once — the iteration contributes a
single send event, no suspension and no retry — and a loop aborted by a send
error makes `handle` return exactly that error, without invoking the next
pipeline stage. -/
theorem send_failure_propagates (m : RetryAfter) (f1 f2 f3 : String → Option Int)
    (now : Int) (req : Request) (sends : Nat → Except String Response)
    (next : Request → Except String Response) (fuel i count acc : Nat) (e : String)
    (hc : count < m.attempts) (hs : sends i = .error e) :
    loop m f1 f2 f3 now req sends (fuel + 1) i count acc
      = some ([Event.send req], count, acc, some e)
    ∧ (∀ fl evs c a e0, loop m f1 f2 f3 now req sends fl 0 0 0 = some (evs, c, a, some e0) →
      handle m f1 f2 f3 now req sends next fl = some (.error e0, evs)
      ∧ numCallNext evs = 0) := by
  constructor
  · simp only [loop, if_pos hc, step, hs]
  · intro fl evs c a e0 hloop
    exact ⟨by simp [handle, hloop],
      loop_no_callNext m f1 f2 f3 now req sends fl 0 0 0 evs c a (some e0) hloop⟩

theorem send_failure_witness :
    handle RetryAfter.default (fun _ => none) (fun _ => none) (fun _ => none) 0 "r"
      (fun _ => .error "connection reset") (fun _ => .ok ⟨200, none⟩) 1
      = some (.error "connection reset", [Event.send "r"])
    ∧ numCallNext [Event.send "r"] = 0 := by
  have h := send_failure_propagates RetryAfter.default
    (fun _ => none) (fun _ => none) (fun _ => none) 0 "r"
    (fun _ => .error "connection reset") (fun _ => .ok ⟨200, none⟩) 0 0 0 0
    "connection reset" (by decide) (by rfl)
  exact h.2 1 [Event.send "r"] 0 0 "connection reset" h.1

theorem callNext_not_mem_of_numCallNext_zero (evs : List Event) (r : Request)
    (h : numCallNext evs = 0) : Event.callNext r ∉ evs := by
  induction evs with
  | nil => simp
  | cons ev t ih =>
    cases ev with
    | send x => simp only [numCallNext] at h; simp [ih h]
    | sleep x => simp only [numCallNext] at h; simp [ih h]
    | callNext x => simp [numCallNext] at h

/-- C9: whenever the loop reaches its normal exit (`Done`), `handle` invokes
the next pipeline stage exactly once, with the original unmodified request,
and returns the next stage's outcome; every send inside the loop also
carried (a clone of) the original request. -/
theorem next_invoked_once_with_original (m : RetryAfter)
    (f1 f2 f3 : String → Option Int) (now : Int) (req : Request)
    (sends : Nat → Except String Response) (next : Request → Except String Response)
    (fuel : Nat) (evs : List Event) (fc fa : Nat)
    (h : loop m f1 f2 f3 now req sends fuel 0 0 0 = some (evs, fc, fa, none)) :
    handle m f1 f2 f3 now req sends next fuel = some (next req, evs ++ [Event.callNext req])
    ∧ numCallNext (evs ++ [Event.callNext req]) = 1
    ∧ (∀ r, Event.send r ∈ evs ++ [Event.callNext req] → r = req)
    ∧ (∀ r, Event.callNext r ∈ evs ++ [Event.callNext req] → r = req) := by
  refine ⟨by simp [handle, h], ?_, ?_, ?_⟩
  · rw [numCallNext_append,
      loop_no_callNext m f1 f2 f3 now req sends fuel 0 0 0 evs fc fa none h]
    rfl
  · intro r hr
    rcases List.mem_append.mp hr with h' | h'
    · exact loop_send_req m f1 f2 f3 now req sends fuel 0 0 0 evs fc fa none h r h'
    · simp at h'
  · intro r hr
    rcases List.mem_append.mp hr with h' | h'
    · have h0 := loop_no_callNext m f1 f2 f3 now req sends fuel 0 0 0 evs fc fa none h
      exact absurd h' (callNext_not_mem_of_numCallNext_zero evs r h0)
    · exact Event.callNext.injEq .. ▸ (List.mem_singleton.mp h')
  
theorem next_invoked_once_witness :
    handle RetryAfter.default (fun _ => none) (fun _ => none) (fun _ => none) 0 "r"
      (fun _ => .ok ⟨200, none⟩) (fun _ => .ok ⟨204, none⟩) 1
      = some (.ok ⟨204, none⟩, [Event.send "r"] ++ [Event.callNext "r"]) := by
  exact (next_invoked_once_with_original RetryAfter.default
    (fun _ => none) (fun _ => none) (fun _ => none) 0 "r"
    (fun _ => .ok ⟨200, none⟩) (fun _ => .ok ⟨204, none⟩) 1
    [Event.send "r"] 0 0 (by rfl)).1

theorem bound_reject_witness :
    loop ⟨3, 30, 20⟩ (fun _ => none) (fun _ => none) (fun _ => none) 0 "q"
      (fun _ => .ok ⟨429, some "25"⟩) 5 0 0 0
      = some ([Event.send "q"], 0, 25000000000, none) := by
  have h := (bound_reject_spec ⟨3, 30, 20⟩ (fun _ => none) (fun _ => none)
    (fun _ => none) 0 "q" (fun _ => .ok ⟨429, some "25"⟩) 4 0 0 0
    ⟨429, some "25"⟩ "25" 25000000000
    (by decide) (by rfl) (by decide) (by rfl) (by rfl)).2 (by decide) (by decide)
  simpa using h

theorem attempts_bound_witness : 3 ≤ RetryAfter.default.attempts :=
  attemptsUsed_never_exceeds_attempts RetryAfter.default
    (fun _ => none) (fun _ => none) (fun _ => none) 0 "r"
    (fun _ => .ok ⟨429, some "5"⟩) 4 0 0 0
    [Event.send "r", Event.sleep 5000000000, Event.send "r",
      Event.sleep 5000000000, Event.send "r", Event.sleep 5000000000]
    3 15000000000 none (by rfl) (by decide)
